import Mathlib

/-!
Verification of the stock-scraper extraction pipeline.

Shallow embedding of the core algorithms of the repository:
  * the temporal parser `extract_date_from_text` (screener_scraper.py),
  * the list sorting used for concalls and annual reports
    (Python `list.sort(key=..., reverse=True)` is a stable sort;
    any stable sort with the same comparison computes the same list,
    so we model it with a stable insertion sort),
  * the grouping / top-5 quarter selection and the priority fallback
    loop of `ScrapingManager._scraping_worker` (app.py),
  * filename generation (`generate_filename` in screener_scraper.py and
    in the scraper template embedded in gui_launcher.py),
  * the BSE `Pname` cleanup and the direct-download verification
    (`_download_bse_document`, `_download_bse_direct_verified`).

Strings are modelled over ASCII text (all inputs in the repository are
ASCII); `str.lower`, `str.strip`, regular-expression searches and the
`in` substring test are translated character by character below.
-/

/-! ### Character and string helpers mirroring the Python primitives -/

/-- Python whitespace for `str.strip` and the regex class `\s`
(ASCII fragment). -/
def pyIsSpaceCh (c : Char) : Bool :=
  c == ' ' || c == '\t' || c == '\n' || c == '\r' || c == '\x0b' || c == '\x0c'

/-- ASCII lower-casing of one character, as `str.lower` does on ASCII. -/
def pyLowerCh (c : Char) : Char :=
  if 65 ≤ c.toNat && c.toNat ≤ 90 then Char.ofNat (c.toNat + 32) else c

/-- `str.lower` on the character list of a string (ASCII model). -/
def pyLower (l : List Char) : List Char := l.map pyLowerCh

/-- `str.strip`: drop whitespace from both ends. -/
def pyStrip (l : List Char) : List Char :=
  ((l.dropWhile pyIsSpaceCh).reverse.dropWhile pyIsSpaceCh).reverse

/-- `str.lower` packaged on `String`. -/
def pyLowerStr (s : String) : String := ⟨pyLower s.data⟩

/-- Is `pat` a prefix of `l`? (Used for `str.startswith` and substring
search.) -/
def isPrefixCh : List Char → List Char → Bool
  | [], _ => true
  | _ :: _, [] => false
  | p :: ps, c :: cs => p == c && isPrefixCh ps cs

/-- Does `pat` occur somewhere in `l`?  Models the Python substring test
`pat in s`. -/
def occursCh (pat : List Char) : List Char → Bool
  | [] => isPrefixCh pat []
  | c :: rest => isPrefixCh pat (c :: rest) || occursCh pat rest

/-- Python `pat in s` on `String`. -/
def containsSub (s pat : String) : Bool := occursCh pat.data s.data

/-- Python `s.startswith(pre)`. -/
def strStartsWith (s pre : String) : Bool := isPrefixCh pre.data s.data

/-- Python `s.endswith(suf)`. -/
def strEndsWith (s suf : String) : Bool := isPrefixCh suf.data.reverse s.data.reverse

/-- One-character `str.replace(a, b)` (a single pass over the string,
which for one-character patterns is just a map). -/
def pyRepl (a b : Char) (s : String) : String :=
  ⟨s.data.map (fun c => if c == a then b else c)⟩

/-- Digit list to number, as `int()` does on a digit string. -/
def digitsToNat (l : List Char) : Nat :=
  l.foldl (fun a c => a * 10 + (c.toNat - 48)) 0

/-- The regex class `\d` (ASCII decimal digit). -/
def isDigitCh (c : Char) : Bool := 48 ≤ c.toNat && c.toNat ≤ 57

/-- Greedily take up to `n` leading decimal digits: the regex piece
`\d{2,4}` (the caller checks the minimum length). -/
def takeDigits : Nat → List Char → List Char
  | 0, _ => []
  | _ + 1, [] => []
  | n + 1, c :: rest => if isDigitCh c then c :: takeDigits n rest else []

/-! ### Dates

Python `datetime` objects are compared lexicographically on
(year, month, day); the scraper only ever builds dates with
`datetime(year, month, 1)`, `datetime(year, 3, 31)` and `datetime.min`,
all with zero time-of-day.  `datetime` validates `1 ≤ month ≤ 12`,
`1 ≤ day ≤ 31` and `year ≥ 1`, so we carry those bounds and encode the
lexicographic order by a numeric key. -/

structure PDate where
  year : Nat
  month : Nat
  day : Nat
  hm1 : 1 ≤ month
  hm2 : month ≤ 12
  hd1 : 1 ≤ day
  hd2 : day ≤ 31
  hy1 : 1 ≤ year

instance : DecidableEq PDate := fun a b =>
  if h1 : a.year = b.year then
    if h2 : a.month = b.month then
      if h3 : a.day = b.day then
        isTrue (by cases a; cases b; simp_all)
      else isFalse (fun he => h3 (congrArg PDate.day he))
    else isFalse (fun he => h2 (congrArg PDate.month he))
  else isFalse (fun he => h1 (congrArg PDate.year he))

/-- Order-embedding of a (bounded) date into `Nat`; because
`month ≤ 12 < 16` and `day ≤ 31 < 32`, this key is strictly monotone for
the lexicographic (year, month, day) order of `datetime`. -/
def pdateKey (d : PDate) : Nat := d.year * 512 + d.month * 32 + d.day

/-- `datetime.min` = year 1, month 1, day 1. -/
def datetimeMin : PDate :=
  ⟨1, 1, 1, by decide, by decide, by decide, by decide, by decide⟩


/-! ### Stable sorting

`list.sort(key=k)` is a stable ascending sort and
`list.sort(key=k, reverse=True)` a stable descending sort.  A stable
sort for a total preorder is unique, so we model both with
`List.insertionSort` from Mathlib over the corresponding total
preorders and prove sortedness, permutation and stability. -/

/-- The descending preorder induced by a numeric key
(`reverse=True`). -/
def descOf (k : α → Nat) : α → α → Prop := fun a b => k b ≤ k a

/-- The ascending preorder induced by a numeric key. -/
def ascOf (k : α → Nat) : α → α → Prop := fun a b => k a ≤ k b

instance (k : α → Nat) : DecidableRel (descOf k) := fun _ _ => Nat.decLe _ _
instance (k : α → Nat) : DecidableRel (ascOf k) := fun _ _ => Nat.decLe _ _

instance (k : α → Nat) : IsTotal α (descOf k) :=
  ⟨fun a b => Nat.le_total (k b) (k a)⟩
instance (k : α → Nat) : IsTotal α (ascOf k) :=
  ⟨fun a b => Nat.le_total (k a) (k b)⟩
instance (k : α → Nat) : IsTrans α (descOf k) :=
  ⟨fun _ _ _ hab hbc => Nat.le_trans hbc hab⟩
instance (k : α → Nat) : IsTrans α (ascOf k) :=
  ⟨fun _ _ _ hab hbc => Nat.le_trans hab hbc⟩

/-- `list.sort(key=k, reverse=True)`: stable descending sort. -/
def pySortDesc (k : α → Nat) (l : List α) : List α :=
  List.insertionSort (descOf k) l

/-- `list.sort(key=k)`: stable ascending sort. -/
def pySortAsc (k : α → Nat) (l : List α) : List α :=
  List.insertionSort (ascOf k) l


/-! ### The temporal parser (`extract_date_from_text`)

The scraper searches, in order:
  1. `q([1-4])\s*fy\s*(\d{2,4})` on `text.lower().strip()`,
  2. `(jan|feb|...|dec)[a-z]*\s*(\d{2,4})` on the same lowered text,
  3. `\b(20\d{2})\b` on the original `text`,
and returns the first match.  The regex engines leftmost-match search
is realised by scanning positions left to right; the greedy `\s*`,
`[a-z]*` and `\d{2,4}` pieces need no backtracking because the
character classes involved are disjoint. -/

/-- The `fy\s*(\d{2,4})` tail of the quarter pattern: expects `fy`,
then skips whitespace and takes 2-4 digits. -/
def matchFyTail (l : List Char) : Option Nat :=
  match l with
  | f :: y :: r2 =>
    if f == 'f' && y == 'y' then
      if 2 ≤ (takeDigits 4 (r2.dropWhile pyIsSpaceCh)).length then
        some (digitsToNat (takeDigits 4 (r2.dropWhile pyIsSpaceCh)))
      else none
    else none
  | _ => none

/-- Match `q([1-4])\s*fy\s*(\d{2,4})` at the head of the (lowered)
text; returns the quarter digit and the raw year number. -/
def matchQuarterAt (l : List Char) : Option (Nat × Nat) :=
  match l with
  | c :: d :: rest =>
    if c == 'q' && (49 ≤ d.toNat && d.toNat ≤ 52) then
      match matchFyTail (rest.dropWhile pyIsSpaceCh) with
      | some nraw => some (d.toNat - 48, nraw)
      | none => none
    else none
  | _ => none

/-- Leftmost search for the quarter pattern. -/
def searchQuarter : List Char → Option (Nat × Nat)
  | [] => none
  | c :: rest =>
    match matchQuarterAt (c :: rest) with
    | some r => some r
    | none => searchQuarter rest

/-- The 12 month abbreviations of the regex alternation, with their
month number (the `month_names` table of the scraper). -/
def monthNumFrom : List Char → Option ({m : Nat // 1 ≤ m ∧ m ≤ 12} × List Char)
  | 'j' :: 'a' :: 'n' :: r => some (⟨1, by decide⟩, r)
  | 'f' :: 'e' :: 'b' :: r => some (⟨2, by decide⟩, r)
  | 'm' :: 'a' :: 'r' :: r => some (⟨3, by decide⟩, r)
  | 'a' :: 'p' :: 'r' :: r => some (⟨4, by decide⟩, r)
  | 'm' :: 'a' :: 'y' :: r => some (⟨5, by decide⟩, r)
  | 'j' :: 'u' :: 'n' :: r => some (⟨6, by decide⟩, r)
  | 'j' :: 'u' :: 'l' :: r => some (⟨7, by decide⟩, r)
  | 'a' :: 'u' :: 'g' :: r => some (⟨8, by decide⟩, r)
  | 's' :: 'e' :: 'p' :: r => some (⟨9, by decide⟩, r)
  | 'o' :: 'c' :: 't' :: r => some (⟨10, by decide⟩, r)
  | 'n' :: 'o' :: 'v' :: r => some (⟨11, by decide⟩, r)
  | 'd' :: 'e' :: 'c' :: r => some (⟨12, by decide⟩, r)
  | _ => none

/-- ASCII lower-case letter, the regex class `[a-z]`. -/
def isAzCh (c : Char) : Bool := 97 ≤ c.toNat && c.toNat ≤ 122

/-- Match `(jan|...|dec)[a-z]*\s*(\d{2,4})` at the head of the lowered
text. -/
def matchMonthAt (l : List Char) : Option ({m : Nat // 1 ≤ m ∧ m ≤ 12} × Nat) :=
  match monthNumFrom l with
  | none => none
  | some (m, r) =>
    if 2 ≤ (takeDigits 4 ((r.dropWhile isAzCh).dropWhile pyIsSpaceCh)).length then
      some (m, digitsToNat (takeDigits 4 ((r.dropWhile isAzCh).dropWhile pyIsSpaceCh)))
    else none

/-- Leftmost search for the month pattern. -/
def searchMonth : List Char → Option ({m : Nat // 1 ≤ m ∧ m ≤ 12} × Nat)
  | [] => none
  | c :: rest =>
    match matchMonthAt (c :: rest) with
    | some r => some r
    | none => searchMonth rest

/-- Regex word character (`\w`, ASCII fragment), used for `\b`. -/
def isWordCh (c : Char) : Bool := c.isAlpha || c.isDigit || c == '_'

/-- The right word boundary `\b` after the matched digits: end of
string or a non-word character. -/
def noWordAfter : List Char → Bool
  | [] => true
  | c :: _ => !isWordCh c

/-- Match `(20\d{2})\b` at the head of `l`; the caller has already
checked the word boundary on the left. -/
def yearAtHere (l : List Char) : Option Nat :=
  match l with
  | [] => none
  | [_] => none
  | [_, _] => none
  | [_, _, _] => none
  | c2 :: c0 :: d1 :: d2 :: rest =>
    if c2 == '2' && c0 == '0' && isDigitCh d1 && isDigitCh d2 && noWordAfter rest then
      some (digitsToNat [c2, c0, d1, d2])
    else none

/-- Leftmost search for `\b(20\d{2})\b`; the flag records whether the
previous character was a word character (no boundary). -/
def searchYearAux : Bool → List Char → Option Nat
  | _, [] => none
  | prevWord, c :: rest =>
    match (if prevWord then none else yearAtHere (c :: rest)) with
    | some y => some y
    | none => searchYearAux (isWordCh c) rest

def searchYear (l : List Char) : Option Nat := searchYearAux false l

/-- Two-digit year normalisation: `if year < 100: year = 2000 + year`. -/
def pyYearNorm (n : Nat) : Nat := if n < 100 then 2000 + n else n


/-- `strftime("%b")` month abbreviations. -/
def monthAbbrev : Nat → String
  | 1 => "Jan" | 2 => "Feb" | 3 => "Mar" | 4 => "Apr"
  | 5 => "May" | 6 => "Jun" | 7 => "Jul" | 8 => "Aug"
  | 9 => "Sep" | 10 => "Oct" | 11 => "Nov" | 12 => "Dec"
  | _ => ""

/-- The 4-tuple returned by `extract_date_from_text`:
`(date_str, parsed_date, quarter, year)`. -/
structure ExtractResult where
  dateStr : Option String
  parsed_date : Option PDate
  quarter : Option String
  year : Option Nat
deriving DecidableEq

/-- `EnhancedScreenerScraper.extract_date_from_text` (screener_scraper.py,
lines 67-100).  The quarter and month patterns run on
`text.lower().strip()`, the bare-year pattern on the original `text`.
In the month branch `datetime(year, month, 1)` never raises (the
normalised year is at least 100 and the month at most 12), so the
`except: pass` fallback is unreachable there. -/
def extract_date_from_text (text : String) : ExtractResult :=
  let text_lower := pyStrip (pyLower text.data)
  match searchQuarter text_lower with
  | some (q, yraw) =>
    let year := pyYearNorm yraw
    { dateStr := some ("Q" ++ toString q ++ " FY" ++ toString year)
      parsed_date := none
      quarter := some ("Q" ++ toString q)
      year := some year }
  | none =>
    match searchMonth text_lower with
    | some (m, yraw) =>
      let year := pyYearNorm yraw
      { dateStr := some (monthAbbrev m.1 ++ "-" ++ toString year)
        parsed_date := some ⟨year, m.1, 1, m.2.1, m.2.2,
          Nat.le_refl 1, by decide, by show 1 ≤ pyYearNorm yraw; unfold pyYearNorm; split <;> omega⟩
        quarter := none
        year := some year }
    | none =>
      match searchYear text.data with
      | some y =>
        { dateStr := some ("FY" ++ toString y)
          parsed_date := none
          quarter := none
          year := some y }
      | none =>
        { dateStr := none, parsed_date := none, quarter := none, year := none }

/-! ### Data model

`ConcallDocument` (a dataclass) and the annual-report dicts from
`extract_concall_data`.  The Python `date` field is `Optional[str]` and
is only ever consumed through truthiness tests (`concall.date or
'unknown'`, `if doc.date:`), for which `None` and `""` behave alike, so
it is modelled as a `String` with `""` playing the falsy role. -/

structure ConcallDoc where
  title : String
  url : String
  doc_type : String
  date : String
  parsed_date : Option PDate
  quarter : Option String
  year : Option Nat
deriving DecidableEq

structure AnnualReport where
  title : String
  url : String
  date : String
  parsed_date : Option PDate
  year : Option Nat
deriving DecidableEq

/-- Sort key `x.parsed_date or datetime.min` for concalls. -/
def concallKey (c : ConcallDoc) : Nat := pdateKey (c.parsed_date.getD datetimeMin)

/-- Sort key `x.get('parsed_date') or datetime.min` for annual
reports. -/
def annualKey (a : AnnualReport) : Nat := pdateKey (a.parsed_date.getD datetimeMin)

/-! ### Grouping and selection (`ScrapingManager._scraping_worker`)

app.py lines 180-378.  The cooperative `self.is_running` flag is
modelled as constantly true (cancellation is outside these claims), and
the outcome of `scraper.download_document` for a candidate is an oracle
`ConcallDoc → Bool`. -/

/-- `date_key = concall.date or 'unknown'`. -/
def groupKey (c : ConcallDoc) : String := if c.date == "" then "unknown" else c.date

/-- Append one concall to the entry of its date key, or add a fresh
entry at the end: the behaviour of the insertion-ordered Python dict
`concall_groups`. -/
def addToGroups : List (String × List ConcallDoc) → String → ConcallDoc →
    List (String × List ConcallDoc)
  | [], k, c => [(k, [c])]
  | (k0, ds) :: rest, k, c =>
    if k0 == k then (k0, ds ++ [c]) :: rest
    else (k0, ds) :: addToGroups rest k c

/-- The grouping dict built over all concalls. -/
def concallGroups (l : List ConcallDoc) : List (String × List ConcallDoc) :=
  l.foldl (fun g c => addToGroups g (groupKey c) c) []

/-- First entry for a key (Python dict lookup; keys are unique). -/
def lookupGroup : List (String × List ConcallDoc) → String →
    Option (List ConcallDoc)
  | [], _ => none
  | (k0, ds) :: rest, k => if k == k0 then some ds else lookupGroup rest k

/-- One entry of `sorted_quarters`: the date key, the members sorted by
`parsed_date or datetime.min` descending (the in-place sort of line
203), and the representative date of the quarter (the key of the most
recent member, `datetime.min` for an empty group). -/
structure Quarter where
  qdate : String
  members : List ConcallDoc
  rep : Nat
deriving DecidableEq

def mkQuarter (k : String) (ms : List ConcallDoc) : Quarter :=
  let sorted := pySortDesc concallKey ms
  { qdate := k
    members := sorted
    rep := match sorted with
           | [] => pdateKey datetimeMin
           | m :: _ => concallKey m }

/-- `sorted_quarters.sort(key=lambda x: x[2], reverse=True)`. -/
def sortedQuarters (l : List ConcallDoc) : List Quarter :=
  pySortDesc (fun q => q.rep)
    ((concallGroups l).map (fun g => mkQuarter g.1 g.2))

/-- `top_5_quarters = sorted_quarters[:5]`. -/
def top5Quarters (l : List ConcallDoc) : List Quarter :=
  (sortedQuarters l).take 5

/-- The `get_priority` function of the worker (app.py lines 236-246):
transcript 1, notes 2, ppt / presentation 3, everything else 4. -/
def get_priority (c : ConcallDoc) : Nat :=
  let dt := pyLowerStr c.doc_type
  if containsSub dt "transcript" then 1
  else if containsSub dt "notes" then 2
  else if containsSub dt "ppt" || containsSub dt "presentation" then 3
  else 4

/-- `'ppt' in doc_type or 'presentation' in doc_type` — the condition of
the give-up-on-this-quarter branch (app.py lines 332 and 356). -/
def isPptDoc (c : ConcallDoc) : Bool :=
  let dt := pyLowerStr c.doc_type
  containsSub dt "ppt" || containsSub dt "presentation"

/-- The per-quarter download loop (app.py lines 262-366): try members in
(already priority-sorted) order; stop at the first success; a failing
ppt / presentation abandons the quarter. -/
def tryQuarter (oracle : ConcallDoc → Bool) : List ConcallDoc → Option ConcallDoc
  | [] => none
  | c :: rest =>
    if oracle c then some c
    else if isPptDoc c then none
    else tryQuarter oracle rest

/-- The members the loop actually attempts to download, in order. -/
def attemptsOf (oracle : ConcallDoc → Bool) : List ConcallDoc → List ConcallDoc
  | [] => []
  | c :: rest =>
    if oracle c then [c]
    else if isPptDoc c then [c]
    else c :: attemptsOf oracle rest

/-- The document that ends up downloaded for one period. -/
structure SelectedDocument where
  period : String
  repKey : Nat
  doc : ConcallDoc
deriving DecidableEq

/-- The whole concall selection of the worker: group, rank quarters,
take the top 5, sort each quarter by `get_priority` (stable, applied to
the date-sorted members) and run the fallback loop. -/
def selectConcalls (oracle : ConcallDoc → Bool) (l : List ConcallDoc) :
    List SelectedDocument :=
  (top5Quarters l).filterMap (fun q =>
    (tryQuarter oracle (pySortAsc get_priority q.members)).map
      (fun c => ⟨q.qdate, q.rep, c⟩))

/-- Category priority as worded by the specification:
`transcript (1) < presentation (2) < recording/other (3) <
concall_generic (4)`.  Modelled from the spec for comparison with the
`get_priority` of the code. -/
def specCategoryPriority (c : ConcallDoc) : Nat :=
  if c.doc_type == "transcript" then 1
  else if c.doc_type == "presentation" then 2
  else if c.doc_type == "concall" then 4
  else 3

/-! ### Filename generation

Two implementations exist in the repository.

`EnhancedScreenerScraper.generate_filename` (screener_scraper.py lines
333-377) reads the document attributes through

  `getattr(doc, 'date', None) or doc.get('date', ...) if
   hasattr(doc, 'get') else f'doc-{index}'`

which parses as `(... or ...) if hasattr(doc, 'get') else f'doc-{index}'`.
`ConcallDocument` instances and the ad-hoc `TempDoc` objects used for
annual reports have no `get` method, so for them `date_part`,
`doc_type` and `url` take the `else` values `f'doc-{index}'`,
`'document'` and `''`; only `doc.title` is consulted (all these objects
do have a `title`).  The embedding below is that no-`get` branch.

The scraper template embedded in gui_launcher.py (lines 222-240 of the
template) has its own `generate_filename` that does use `doc.date` and
`doc.doc_type` and strips path-hostile characters with
`re.sub(r'[<>:"/\\|?*]', '_', filename)`. -/

/-- `company.replace('/', '_').replace('\\', '_')`. -/
def pyCleanCompany (company : String) : String :=
  pyRepl '\\' '_' (pyRepl '/' '_' company)

/-- `EnhancedScreenerScraper.generate_filename` on an object without a
`get` method (every `ConcallDocument` and `TempDoc`); `index` is a
Python `int`. -/
def generate_filename (company : String) (doc : ConcallDoc) (index : Int) : String :=
  let company_clean := pyCleanCompany company
  -- hasattr(doc, 'get') is False: the date and doc_type attributes are ignored
  let date_part1 := pyRepl ' ' '-' (pyRepl '/' '-' ("doc-" ++ toString index))
  let doc_type0 := "document"
  let title_lower := pyLowerStr doc.title
  let doc_type :=
    if doc_type0 == "document" then
      if containsSub title_lower "annual" || containsSub title_lower "financial year"
      then "annual_report"
      else if containsSub title_lower "transcript" then "transcript"
      else if containsSub title_lower "presentation" then "presentation"
      else doc_type0
    else doc_type0
  let date_part :=
    if doc_type == "annual_report" && containsSub (pyLowerStr date_part1) "fy" then
      date_part1
    else if doc_type == "annual_report" && !strStartsWith date_part1 "FY" then
      (if strStartsWith date_part1 "doc-" then "FY" ++ toString (2024 - index)
       else date_part1)
    else date_part1
  let url := ""   -- same getattr-or-get precedence: '' for no-get objects
  let url_lower := pyLowerStr url
  let ext :=
    if containsSub url_lower ".pdf" then "pdf"
    else if containsSub url_lower ".ppt" then "ppt"
    else if containsSub url_lower ".doc" then "doc"
    else "pdf"
  company_clean ++ "_" ++ date_part ++ "_" ++ doc_type ++ "." ++ ext

/-- The path-hostile characters of `[<>:"/\\|?*]`. -/
def isHostileCh (c : Char) : Bool :=
  c == '<' || c == '>' || c == ':' || c == '\"' || c == '/'
    || c == '\\' || c == '|' || c == '?' || c == '*'

/-- One character of `re.sub(r'[<>:"/\\|?*]', '_', ...)`. -/
def guiSanitizeCh (c : Char) : Char := if isHostileCh c then '_' else c

/-- `generate_filename` of the scraper template in gui_launcher.py:
`{symbol}_{date-or-doc-index}_{doc_type}.pdf` with hostile characters
replaced by `_`. -/
def generate_filename_gui (company_symbol : String) (doc : ConcallDoc)
    (index : Nat) : String :=
  let date_part :=
    if doc.date == "" then "doc-" ++ toString (index + 1)
    else pyRepl ' ' '-' (pyRepl '/' '-' doc.date)
  let filename := company_symbol ++ "_" ++ date_part ++ "_" ++ doc.doc_type ++ ".pdf"
  ⟨filename.data.map guiSanitizeCh⟩

/-! ### BSE `Pname` cleanup and direct verified download

`_download_bse_document` (screener_scraper.py lines 425-472) extracts
the `Pname` query parameter and cleans it with
`pname.replace('\\', '').replace('%5C', '')`; `str.replace` removes
occurrences in one left-to-right pass without rescanning. -/

/-- One-pass removal of the literal substring `%5C`. -/
def removePnameEsc : List Char → List Char
  | '%' :: '5' :: 'C' :: rest => removePnameEsc rest
  | c :: rest => c :: removePnameEsc rest
  | [] => []

/-- `clean_pname = pname.replace('\\', '').replace('%5C', '')`: first
every backslash is removed (a one-character pattern, so a filter), then
`%5C` is removed in one pass. -/
def cleanPname (p : String) : String :=
  ⟨removePnameEsc (p.data.filter (fun c => !(c == '\\')))⟩

/-- The first direct-URL template of `_download_bse_direct_verified`
(line 686). -/
def bseDirectUrl1 (p : String) : String :=
  "https://www.bseindia.com/xml-data/corpfiling/AttachHis/" ++ p

/-! ### Download verification -/

/-- An HTTP response as the downloader sees it: status, the
`content-type` header (lowered where the code lowers it), the parsed
`content-length` header, the final URL and the body bytes (as
characters). -/
structure HttpResponse where
  status_code : Nat
  content_type : String
  content_length : Nat
  url : String
  body : List Char
deriving DecidableEq

/-- The regular (non-BSE) branch of
`EnhancedScreenerScraper.download_document` (screener_scraper.py lines
398-419): the body is written out and success is reported whenever the
status is 200 — no content-type or signature check at all. -/
def download_document_regular (r : HttpResponse) : Bool :=
  r.status_code == 200

/-- One attempt of `_download_bse_direct_verified` (lines 692-752):
HTTP 200, then `'application/pdf' in content_type or
response.url.endswith('.pdf') or int(content_length) > 10000`, then more
than 1000 bytes written, then the first bytes must be `%PDF`. -/
def bseDirectAttempt (r : HttpResponse) : Bool :=
  if r.status_code == 200 then
    if containsSub (pyLowerStr r.content_type) "application/pdf"
        || strEndsWith r.url ".pdf" || decide (10000 < r.content_length) then
      if decide (1000 < r.body.length) then
        isPrefixCh "%PDF".data r.body
      else false
    else false
  else false

/-- `_download_bse_direct_verified`: the four direct-URL attempts in
sequence (given their responses); success as soon as one attempt
verifies, failure when all are exhausted. -/
def downloadBseDirectVerified : List HttpResponse → Bool
  | [] => false
  | r :: rest => if bseDirectAttempt r then true else downloadBseDirectVerified rest

/-- Modelled from the spec: a `content-type` that "indicates a binary
document type" (pdf, office or generic binary). -/
def specContentTypeBinary (ct : String) : Bool :=
  containsSub ct "application/pdf" || containsSub ct "application/octet-stream"
    || containsSub ct "application/msword" || containsSub ct "application/vnd"

/-- Modelled from the spec: leading bytes matching "the expected file
signature" of a binary document (`%PDF`, zip-based office `PK`, or the
OLE compound-file magic). -/
def specSignatureMatch (body : List Char) : Bool :=
  isPrefixCh "%PDF".data body || isPrefixCh "PK".data body
    || isPrefixCh ['\xD0', '\xCF', '\x11', '\xE0'] body

/-! ### Concrete inputs used by counterexamples and witnesses -/

def dApr2025 : PDate := ⟨2025, 4, 1, by decide, by decide, by decide, by decide, by decide⟩
def dJan2025 : PDate := ⟨2025, 1, 1, by decide, by decide, by decide, by decide, by decide⟩

/-- A generic concall link (category `concall`) of period Apr-2025. -/
def cgDoc : ConcallDoc :=
  ⟨"Apr 2025 - Concall", "https://www.screener.in/c1", "concall", "Apr-2025",
    some dApr2025, none, some 2025⟩

/-- A recording link of the same period, discovered after `cgDoc`. -/
def recDoc : ConcallDoc :=
  ⟨"Apr 2025 - Rec", "https://www.screener.in/c2", "recording", "Apr-2025",
    some dApr2025, none, some 2025⟩

/-- A transcript of the same period. -/
def trDoc : ConcallDoc :=
  ⟨"Apr 2025 - Transcript", "https://www.screener.in/c3", "transcript", "Apr-2025",
    some dApr2025, none, some 2025⟩

/-- A presentation of period Jan-2025. -/
def ppDoc : ConcallDoc :=
  ⟨"Jan 2025 - PPT", "https://www.screener.in/c4", "presentation", "Jan-2025",
    some dJan2025, none, some 2025⟩

/-- The `TempDoc` built for an annual report in the worker (app.py lines
409-419), handed to `generate_filename` with index `j + 100`. -/
def annualTempDoc : ConcallDoc :=
  ⟨"Annual Report 2023", "https://www.bseindia.com/x.pdf", "annual_report",
    "FY2023", none, none, some 2023⟩

/-- A transcript document as named in the spec example. -/
def tcsTrDoc : ConcallDoc :=
  ⟨"Q1 FY2024 Earnings Call Transcript", "https://example.com/tcs.pdf",
    "transcript", "Q1 FY2024", none, some "Q1", some 2024⟩

/-- An HTTP 200 response that is an HTML interstitial page, not a
binary document. -/
def htmlResponse : HttpResponse :=
  ⟨200, "text/html", 512, "https://www.bseindia.com/AnnPdfOpen.aspx",
    "<html><body>bot check</body></html>".data⟩

/-- A genuine PDF response (status 200, pdf content type, `%PDF` magic,
more than 1000 bytes). -/
def pdfResponse : HttpResponse :=
  ⟨200, "application/pdf", 45000,
    "https://www.bseindia.com/xml-data/corpfiling/AttachHis/x.pdf",
    '%' :: 'P' :: 'D' :: 'F' :: List.replicate 1200 'x'⟩

/-! ### General lemmas about the embedded primitives -/

/-- The numeric key realises exactly the lexicographic `datetime`
comparison. -/
theorem pdateKey_lt_iff (a b : PDate) :
    pdateKey a < pdateKey b ↔
      (a.year < b.year ∨ (a.year = b.year ∧ (a.month < b.month ∨
        (a.month = b.month ∧ a.day < b.day)))) := by
  have h1 := a.hm1; have h2 := a.hm2; have h3 := a.hd1; have h4 := a.hd2
  have h5 := b.hm1; have h6 := b.hm2; have h7 := b.hd1; have h8 := b.hd2
  unfold pdateKey
  omega

/-- `datetime.min` is the least date. -/
theorem datetimeMin_le (d : PDate) : pdateKey datetimeMin ≤ pdateKey d := by
  have h1 := d.hm1; have h3 := d.hd1; have h5 := d.hy1
  unfold pdateKey datetimeMin
  simp only
  omega

theorem pySortDesc_perm (k : α → Nat) (l : List α) :
    List.Perm (pySortDesc k l) l :=
  List.perm_insertionSort _ l

theorem pySortAsc_perm (k : α → Nat) (l : List α) :
    List.Perm (pySortAsc k l) l :=
  List.perm_insertionSort _ l

theorem pySortDesc_sorted (k : α → Nat) (l : List α) :
    (pySortDesc k l).Pairwise (fun a b => k b ≤ k a) :=
  List.sorted_insertionSort (descOf k) l

theorem pySortAsc_sorted (k : α → Nat) (l : List α) :
    (pySortAsc k l).Pairwise (fun a b => k a ≤ k b) :=
  List.sorted_insertionSort (ascOf k) l

/-- Inserting an element jumps over strictly larger keys only, so within
one key class it lands in front of the (later-inserted) rest. -/
theorem filter_orderedInsert_desc (k : α → Nat) (v : Nat) (b : α) :
    ∀ s : List α,
      (List.orderedInsert (descOf k) b s).filter (fun x => k x == v)
        = if k b = v then b :: s.filter (fun x => k x == v)
          else s.filter (fun x => k x == v)
  | [] => by
    by_cases h : k b = v <;>
      simp [List.orderedInsert, List.filter_cons, h]
  | y :: ys => by
    simp only [List.orderedInsert]
    by_cases hr : descOf k b y
    · by_cases h : k b = v <;> by_cases hy : k y = v <;>
        simp [if_pos hr, List.filter_cons, h, hy]
    · have hlt : k b < k y := by
        simp only [descOf] at hr; omega
      by_cases hy : k y = v
      · have hb : ¬ k b = v := by omega
        simp [if_neg hr, List.filter_cons, hy, hb,
          filter_orderedInsert_desc k v b ys]
      · by_cases h : k b = v <;>
          simp [if_neg hr, List.filter_cons, hy, h,
            filter_orderedInsert_desc k v b ys]

theorem filter_orderedInsert_asc (k : α → Nat) (v : Nat) (b : α) :
    ∀ s : List α,
      (List.orderedInsert (ascOf k) b s).filter (fun x => k x == v)
        = if k b = v then b :: s.filter (fun x => k x == v)
          else s.filter (fun x => k x == v)
  | [] => by
    by_cases h : k b = v <;>
      simp [List.orderedInsert, List.filter_cons, h]
  | y :: ys => by
    simp only [List.orderedInsert]
    by_cases hr : ascOf k b y
    · by_cases h : k b = v <;> by_cases hy : k y = v <;>
        simp [if_pos hr, List.filter_cons, h, hy]
    · have hlt : k y < k b := by
        simp only [ascOf] at hr; omega
      by_cases hy : k y = v
      · have hb : ¬ k b = v := by omega
        simp [if_neg hr, List.filter_cons, hy, hb,
          filter_orderedInsert_asc k v b ys]
      · by_cases h : k b = v <;>
          simp [if_neg hr, List.filter_cons, hy, h,
            filter_orderedInsert_asc k v b ys]

/-- Stability of the descending sort: each key class is preserved in
its original order. -/
theorem filter_pySortDesc (k : α → Nat) (v : Nat) :
    ∀ l : List α,
      (pySortDesc k l).filter (fun x => k x == v)
        = l.filter (fun x => k x == v)
  | [] => rfl
  | b :: t => by
    have ih := filter_pySortDesc k v t
    unfold pySortDesc at ih ⊢
    show (List.orderedInsert (descOf k) b
        (List.insertionSort (descOf k) t)).filter _ = _
    rw [filter_orderedInsert_desc]
    by_cases h : k b = v <;> simp [h, List.filter_cons, ih]

/-- Stability of the ascending sort. -/
theorem filter_pySortAsc (k : α → Nat) (v : Nat) :
    ∀ l : List α,
      (pySortAsc k l).filter (fun x => k x == v)
        = l.filter (fun x => k x == v)
  | [] => rfl
  | b :: t => by
    have ih := filter_pySortAsc k v t
    unfold pySortAsc at ih ⊢
    show (List.orderedInsert (ascOf k) b
        (List.insertionSort (ascOf k) t)).filter _ = _
    rw [filter_orderedInsert_asc]
    by_cases h : k b = v <;> simp [h, List.filter_cons, ih]

theorem pyYearNorm_pos (n : Nat) : 1 ≤ pyYearNorm n := by
  unfold pyYearNorm; split <;> omega

/-! ### Claim C6 — stable most-recent-first sorting -/

/-- C6: concall and annual-report lists are sorted most-recent-first by
`parsed_date` with a null date treated as the minimum (`datetime.min`),
the result is a permutation of the input, and the sort is stable (each
equal-date class keeps its insertion order); a document with a null
parsed date gets exactly the minimal key. -/
theorem c6_sort_stable_desc :
    (∀ cs : List ConcallDoc,
      (pySortDesc concallKey cs).Pairwise (fun a b => concallKey b ≤ concallKey a)
      ∧ List.Perm (pySortDesc concallKey cs) cs
      ∧ ∀ v, (pySortDesc concallKey cs).filter (fun x => concallKey x == v)
          = cs.filter (fun x => concallKey x == v))
    ∧ (∀ ars : List AnnualReport,
      (pySortDesc annualKey ars).Pairwise (fun a b => annualKey b ≤ annualKey a)
      ∧ List.Perm (pySortDesc annualKey ars) ars
      ∧ ∀ v, (pySortDesc annualKey ars).filter (fun x => annualKey x == v)
          = ars.filter (fun x => annualKey x == v))
    ∧ (∀ c : ConcallDoc, pdateKey datetimeMin ≤ concallKey c)
    ∧ (∀ t u dt d q y, concallKey ⟨t, u, dt, d, none, q, y⟩ = pdateKey datetimeMin) := by
  refine ⟨fun cs => ⟨pySortDesc_sorted _ cs, pySortDesc_perm _ cs,
      fun v => filter_pySortDesc _ v cs⟩,
    fun ars => ⟨pySortDesc_sorted _ ars, pySortDesc_perm _ ars,
      fun v => filter_pySortDesc _ v ars⟩,
    fun c => ?_, fun t u dt d q y => rfl⟩
  cases h : c.parsed_date with
  | none => simp [concallKey, h]
  | some d => simpa [concallKey, h] using datetimeMin_le d

/-! ### Claim C2 — category priority within a period group -/

/-- C2 counterexample: the claimed priority order
`transcript < presentation < recording/other < concall_generic` does not
match the code.  `get_priority` maps both a recording and a generic
concall link to tier 4 (and reserves tier 2 for `notes`), so for the
group `[concall, recording]` (discovery order) the code attempts the
generic concall first, while the claimed order would attempt the
recording first. -/
theorem c2_priority_counterexample :
    get_priority cgDoc = 4 ∧ get_priority recDoc = 4
    ∧ specCategoryPriority cgDoc = 4 ∧ specCategoryPriority recDoc = 3
    ∧ pySortAsc get_priority [cgDoc, recDoc] = [cgDoc, recDoc]
    ∧ pySortAsc specCategoryPriority [cgDoc, recDoc] = [recDoc, cgDoc]
    ∧ pySortAsc get_priority [cgDoc, recDoc]
        ≠ pySortAsc specCategoryPriority [cgDoc, recDoc] := by decide

/-- C2 amended: within each selected period group, members are ordered
for download attempts by the priority of `get_priority` — doc_type
containing `transcript` (1) < `notes` (2) < `ppt`/`presentation` (3) <
everything else, recordings and generic concalls alike (4) — and ties
keep the pre-sort order (the sort is stable). -/
theorem c2_priority_amended (l : List ConcallDoc) :
    (pySortAsc get_priority l).Pairwise
      (fun a b => get_priority a ≤ get_priority b)
    ∧ List.Perm (pySortAsc get_priority l) l
    ∧ ∀ p, (pySortAsc get_priority l).filter (fun c => get_priority c == p)
        = l.filter (fun c => get_priority c == p) :=
  ⟨pySortAsc_sorted _ l, pySortAsc_perm _ l, fun p => filter_pySortAsc _ p l⟩

/-! ### Claim C3 — a failed presentation abandons the period -/

/-- C3: in the per-period fallback loop, if a ppt/presentation member is
attempted (all earlier members failed and were not presentations) and
its download fails, the loop yields no document for the period and the
remaining lower-priority members — any generic concall included — are
never attempted. -/
theorem c3_presentation_short_circuit (oracle : ConcallDoc → Bool)
    (pre : List ConcallDoc) (p : ConcallDoc) (post : List ConcallDoc)
    (hpre : ∀ d ∈ pre, oracle d = false ∧ isPptDoc d = false)
    (hp : isPptDoc p = true) (hfail : oracle p = false) :
    tryQuarter oracle (pre ++ p :: post) = none
    ∧ attemptsOf oracle (pre ++ p :: post) = pre ++ [p] := by
  induction pre with
  | nil => simp [tryQuarter, attemptsOf, hfail, hp]
  | cons d rest ih =>
    have hd := hpre d (by simp)
    have hrest : ∀ x ∈ rest, oracle x = false ∧ isPptDoc x = false :=
      fun x hx => hpre x (by simp [hx])
    obtain ⟨ih1, ih2⟩ := ih hrest
    simp [tryQuarter, attemptsOf, hd.1, hd.2, ih1, ih2]

/-- C3 witness: with a transcript that fails, then a failing
presentation, then a generic concall, the period yields nothing and the
generic concall is never attempted. -/
theorem c3_short_circuit_witness :
    tryQuarter (fun _ => false) ([trDoc] ++ ppDoc :: [cgDoc]) = none
    ∧ attemptsOf (fun _ => false) ([trDoc] ++ ppDoc :: [cgDoc]) = [trDoc] ++ [ppDoc] :=
  c3_presentation_short_circuit (fun _ => false) [trDoc] ppDoc [cgDoc]
    (by decide) (by decide) rfl

/-! ### Claim C7 — download verification -/

/-- C7 counterexample: for a regular candidate URL the downloader
reports success for ANY HTTP 200 response; here a 200 `text/html`
interstitial page — whose content type indicates no binary kind and
whose leading bytes match no binary signature — is reported
successful. -/
theorem c7_verify_counterexample :
    download_document_regular htmlResponse = true
    ∧ htmlResponse.status_code = 200
    ∧ specContentTypeBinary htmlResponse.content_type = false
    ∧ specSignatureMatch htmlResponse.body = false := by decide

/-- C7 amended: content verification exists only in the BSE
direct-verified strategy: `_download_bse_direct_verified` succeeds only
if some attempt returned HTTP 200 with more than 1000 body bytes whose
leading bytes are the `%PDF` signature; the regular download path of
`download_document` reports success exactly when the status is 200,
with no content-type or signature check. -/
theorem c7_verify_amended :
    (∀ r : HttpResponse, download_document_regular r = true ↔ r.status_code = 200)
    ∧ (∀ rs : List HttpResponse, downloadBseDirectVerified rs = true →
        ∃ r, r ∈ rs ∧ r.status_code = 200 ∧ 1000 < r.body.length
          ∧ isPrefixCh "%PDF".data r.body = true) := by
  constructor
  · intro r
    simp [download_document_regular]
  · intro rs
    induction rs with
    | nil => intro h; simp [downloadBseDirectVerified] at h
    | cons r rest ih =>
      intro h
      rw [downloadBseDirectVerified] at h
      by_cases ha : bseDirectAttempt r = true
      · refine ⟨r, by simp, ?_⟩
        unfold bseDirectAttempt at ha
        split at ha
        · split at ha
          · split at ha
            · refine ⟨by simpa using (by assumption : (r.status_code == 200) = true), ?_, ha⟩
              simpa using (by assumption : decide (1000 < r.body.length) = true)
            · exact absurd ha (by simp)
          · exact absurd ha (by simp)
        · exact absurd ha (by simp)
      · rw [if_neg ha] at h
        obtain ⟨r', hmem, hrest⟩ := ih h
        exact ⟨r', by simp [hmem], hrest⟩

set_option maxRecDepth 10000 in
/-- C7 amended witness at a genuine PDF response. -/
theorem c7_verify_amended_witness :
    ∃ r, r ∈ [pdfResponse] ∧ r.status_code = 200 ∧ 1000 < r.body.length
      ∧ isPrefixCh "%PDF".data r.body = true :=
  c7_verify_amended.2 [pdfResponse] (by decide)

/-! ### Claim C8 — the archive namer -/

theorem guiSanitizeCh_not_hostile (c : Char) :
    isHostileCh (guiSanitizeCh c) = false := by
  unfold guiSanitizeCh
  by_cases h : isHostileCh c = true
  · rw [if_pos h]; decide
  · rw [if_neg h]; simpa using h

/-- C8: the template archive namer turns company `TCS`, period label
`Q1 FY2024`, category `transcript` (with a `.pdf` URL, the extension the
template always emits) into exactly `TCS_Q1-FY2024_transcript.pdf`, and
no path-hostile character `<>:"/\|?*` from any input component survives
into the produced filename. -/
theorem c8_archive_namer :
    generate_filename_gui "TCS" tcsTrDoc 0 = "TCS_Q1-FY2024_transcript.pdf"
    ∧ ∀ (company : String) (doc : ConcallDoc) (index : Nat),
        (generate_filename_gui company doc index).data.filter isHostileCh = [] := by
  refine ⟨by decide, fun company doc index => ?_⟩
  show (String.mk _).data.filter isHostileCh = []
  rw [List.filter_eq_nil_iff]
  intro c hc
  obtain ⟨c0, _, rfl⟩ := List.mem_map.1 hc
  simp [guiSanitizeCh_not_hostile]

/-! ### Claim C9 — BSE `Pname` cleanup -/

theorem removePnameEsc_subset (l : List Char) :
    ∀ c ∈ removePnameEsc l, c ∈ l := by
  generalize hn : l.length = n
  induction n using Nat.strong_induction_on generalizing l with
  | _ n ih =>
    intro c hc
    rw [removePnameEsc.eq_def] at hc
    split at hc
    · rename_i rest
      have hlen : rest.length < n := by simp at hn; omega
      have : c ∈ rest := ih rest.length hlen rest rfl c hc
      simp [this]
    · rename_i c1 rest1 hno
      rcases List.mem_cons.1 hc with h | h
      · simp [h]
      · have hlen : rest1.length < n := by simp at hn; omega
        have : c ∈ rest1 := ih rest1.length hlen rest1 rfl c h
        simp [this]
    · simp at hc

/-- C9 counterexample: the claim promises that no `%5C` survives into
the rewritten direct URL, but `str.replace` removes occurrences in one
pass, so a `Pname` like `%5%5CC` (which contains `%5C`) cleans to the
string `%5C` and the rewritten URL still contains `%5C`. -/
theorem c9_pname_counterexample :
    containsSub "%5%5CC" "%5C" = true
    ∧ cleanPname "%5%5CC" = "%5C"
    ∧ containsSub (bseDirectUrl1 (cleanPname "%5%5CC")) "%5C" = true := by decide

/-- C9 amended: the cleaned path and hence the rewritten direct URL
never contain a backslash; the single-pass `%5C` removal eliminates
`%5C` for ordinary embedded paths — `Reports\Q1.pdf` and
`Reports%5CQ1.pdf` both rewrite to a URL containing `Reports` and
`Q1.pdf` with no backslash and no `%5C` — but can leave a `%5C` when
the removal glues `%5` to a following `C`. -/
theorem c9_pname_amended :
    (∀ p : String, (bseDirectUrl1 (cleanPname p)).data.filter (fun c => c == '\\') = [])
    ∧ cleanPname "Reports\\Q1.pdf" = "ReportsQ1.pdf"
    ∧ cleanPname "Reports%5CQ1.pdf" = "ReportsQ1.pdf"
    ∧ containsSub (bseDirectUrl1 (cleanPname "Reports\\Q1.pdf")) "Reports" = true
    ∧ containsSub (bseDirectUrl1 (cleanPname "Reports\\Q1.pdf")) "Q1.pdf" = true
    ∧ containsSub (bseDirectUrl1 (cleanPname "Reports\\Q1.pdf")) "%5C" = false
    ∧ containsSub (bseDirectUrl1 (cleanPname "Reports%5CQ1.pdf")) "%5C" = false := by
  refine ⟨fun p => ?_, by decide, by decide, by decide, by decide, by decide, by decide⟩
  show (("https://www.bseindia.com/xml-data/corpfiling/AttachHis/" : String) ++ cleanPname p).data.filter _ = []
  rw [List.filter_eq_nil_iff]
  intro c hc
  have hc2 : c ∈ ("https://www.bseindia.com/xml-data/corpfiling/AttachHis/" : String).data
      ∨ c ∈ (cleanPname p).data := by
    rw [← List.mem_append]
    simpa [String.data_append] using hc
  simp only [beq_iff_eq]
  intro hbs
  subst hbs
  rcases hc2 with h | h
  · revert h; decide
  · have h2 := removePnameEsc_subset _ _ h
    have := List.of_mem_filter h2
    simp at this

/-! ### Claim C10 — `generate_filename` on objects without `get` -/

theorem digitChar_safe : ∀ (m : Nat),
    Nat.digitChar m ≠ ' ' ∧ Nat.digitChar m ≠ '/'
      ∧ pyLowerCh (Nat.digitChar m) ≠ 'y'
  | 0 => by decide
  | 1 => by decide
  | 2 => by decide
  | 3 => by decide
  | 4 => by decide
  | 5 => by decide
  | 6 => by decide
  | 7 => by decide
  | 8 => by decide
  | 9 => by decide
  | 10 => by decide
  | 11 => by decide
  | 12 => by decide
  | 13 => by decide
  | 14 => by decide
  | 15 => by decide
  | n + 16 => by
    simp only [Nat.digitChar]
    repeat rw [if_neg (by omega)]
    decide

theorem toDigitsCore_chars (P : Char → Prop) (hP : ∀ m, P (Nat.digitChar m)) :
    ∀ (fuel n : Nat) (acc : List Char), (∀ c ∈ acc, P c) →
      ∀ c ∈ Nat.toDigitsCore 10 fuel n acc, P c
  | 0, n, acc, hacc => fun c hc => hacc c hc
  | fuel + 1, n, acc, hacc => by
    intro c hc
    rw [Nat.toDigitsCore] at hc
    have hcons : ∀ x ∈ Nat.digitChar (n % 10) :: acc, P x := by
      intro x hx
      rcases List.mem_cons.1 hx with rfl | hx
      · exact hP _
      · exact hacc x hx
    split at hc
    · exact hcons c hc
    · exact toDigitsCore_chars P hP fuel (n / 10) _ hcons c hc

theorem natToString_chars (P : Char → Prop) (hP : ∀ m, P (Nat.digitChar m))
    (n : Nat) : ∀ c ∈ (Nat.repr n).data, P c := fun c hc =>
  toDigitsCore_chars P hP (n + 1) n [] (by simp) c hc

/-- The characters of `str(index)` for a Python int: a minus sign or
digit characters. -/
theorem intToString_chars (i : Int) :
    ∀ c ∈ (toString i).data, c = '-' ∨ ∃ m, c = Nat.digitChar m := by
  intro c hc
  have he : (toString i) = Int.repr i := rfl
  rw [he] at hc
  cases i with
  | ofNat m =>
    exact Or.inr (natToString_chars (fun c => ∃ m, c = Nat.digitChar m)
      (fun m => ⟨m, rfl⟩) m c hc)
  | negSucc m =>
    rw [Int.repr, String.data_append] at hc
    rcases List.mem_append.1 hc with h | h
    · left; simpa using h
    · exact Or.inr (natToString_chars (fun c => ∃ m, c = Nat.digitChar m)
        (fun m => ⟨m, rfl⟩) _ c h)

/-- The characters of the period placeholder `doc-{index}`. -/
theorem docIndex_chars (i : Int) :
    ∀ c ∈ ("doc-" ++ toString i).data,
      c = 'd' ∨ c = 'o' ∨ c = 'c' ∨ c = '-' ∨ ∃ m, c = Nat.digitChar m := by
  intro c hc
  rw [String.data_append] at hc
  rcases List.mem_append.1 hc with h | h
  · have h4 : c ∈ ['d', 'o', 'c', '-'] := h
    simp only [List.mem_cons, List.not_mem_nil, or_false] at h4
    tauto
  · rcases intToString_chars i c h with h | h
    · simp [h]
    · exact Or.inr (Or.inr (Or.inr (Or.inr h)))

theorem pyRepl_id (a b : Char) (s : String) (h : ∀ c ∈ s.data, ¬ c = a) :
    pyRepl a b s = s := by
  unfold pyRepl
  obtain ⟨l⟩ := s
  simp only at h ⊢
  congr 1
  induction l with
  | nil => rfl
  | cons x xs ih =>
    simp only [List.map_cons]
    rw [if_neg (by simpa using h x (by simp)), ih (fun c hc => h c (by simp [hc]))]

/-- `doc-{index}` contains no slash and no space, so the two replaces
leave it unchanged. -/
theorem docIndex_norepl (i : Int) :
    pyRepl ' ' '-' (pyRepl '/' '-' ("doc-" ++ toString i)) = "doc-" ++ toString i := by
  have h1 : pyRepl '/' '-' ("doc-" ++ toString i) = "doc-" ++ toString i := by
    refine pyRepl_id _ _ _ (fun c hc => ?_)
    rcases docIndex_chars i c hc with h | h | h | h | ⟨m, rfl⟩
    · subst h; decide
    · subst h; decide
    · subst h; decide
    · subst h; decide
    · exact (digitChar_safe m).2.1
  rw [h1]
  refine pyRepl_id _ _ _ (fun c hc => ?_)
  rcases docIndex_chars i c hc with h | h | h | h | ⟨m, rfl⟩
  · subst h; decide
  · subst h; decide
  · subst h; decide
  · subst h; decide
  · exact (digitChar_safe m).1

theorem isPrefixCh_sub : ∀ (pat l : List Char),
    isPrefixCh pat l = true → ∀ c ∈ pat, c ∈ l
  | [], _ => by simp
  | p :: ps, [] => by simp [isPrefixCh]
  | p :: ps, c0 :: cs => by
    simp only [isPrefixCh, Bool.and_eq_true, beq_iff_eq]
    rintro ⟨rfl, hrest⟩ c hc
    rcases List.mem_cons.1 hc with rfl | h
    · simp
    · exact List.mem_cons_of_mem _ (isPrefixCh_sub ps cs hrest c h)

theorem occursCh_sub : ∀ (l pat : List Char),
    occursCh pat l = true → ∀ c ∈ pat, c ∈ l
  | [], pat => by
    cases pat <;> simp [occursCh, isPrefixCh]
  | c0 :: cs, pat => by
    simp only [occursCh, Bool.or_eq_true]
    rintro (h | h) c hc
    · exact isPrefixCh_sub pat _ h c hc
    · exact List.mem_cons_of_mem _ (occursCh_sub cs pat h c hc)

/-- The lowered `doc-{index}` placeholder contains no `fy` (there is no
`y` at all), so the keep-FY branch never fires on it. -/
theorem docIndex_no_fy (i : Int) :
    containsSub (pyLowerStr ("doc-" ++ toString i)) "fy" = false := by
  by_contra hne
  have htrue : containsSub (pyLowerStr ("doc-" ++ toString i)) "fy" = true := by
    revert hne
    cases containsSub (pyLowerStr ("doc-" ++ toString i)) "fy" <;> simp
  have hy : 'y' ∈ (pyLowerStr ("doc-" ++ toString i)).data :=
    occursCh_sub _ _ htrue 'y' (by decide)
  have hex : ∃ c0 ∈ ("doc-" ++ toString i).data, pyLowerCh c0 = 'y' := by
    simpa [pyLowerStr, pyLower, eq_comm] using hy
  obtain ⟨c0, hc0, hlow⟩ := hex
  rcases docIndex_chars i c0 hc0 with h | h | h | h | ⟨m, rfl⟩
  · subst h; revert hlow; decide
  · subst h; revert hlow; decide
  · subst h; revert hlow; decide
  · subst h; revert hlow; decide
  · exact (digitChar_safe m).2.2 hlow

theorem docIndex_startswith (i : Int) :
    strStartsWith ("doc-" ++ toString i) "FY" = false
    ∧ strStartsWith ("doc-" ++ toString i) "doc-" = true := by
  constructor
  · show isPrefixCh ['F', 'Y'] ("doc-" ++ toString i).data = false
    rw [String.data_append]
    simp [isPrefixCh]
  · show isPrefixCh ['d', 'o', 'c', '-'] ("doc-" ++ toString i).data = true
    rw [String.data_append]
    simp [isPrefixCh]

/-- C10 counterexample: for the annual-report `TempDoc` (no `get`
method, title `Annual Report 2023`, index `j + 100 = 100`), the period
component is not `doc-100`: the title-inferred `annual_report` category
rewrites it to `FY{2024-index} = FY1924`. -/
theorem c10_tempdoc_counterexample :
    generate_filename "TCS" annualTempDoc 100 = "TCS_FY1924_annual_report.pdf"
    ∧ generate_filename "TCS" annualTempDoc 100 ≠ "TCS_doc-100_annual_report.pdf" := by
  decide

/-- C10 amended: `generate_filename` on an object without a `get`
method ignores the date, doc_type and url fields entirely (the filename
depends only on the company, the title and the index); the category
defaults to `document` unless re-inferred from title keywords; the
period component is `doc-{index}` — except that a title inferred as
`annual_report` has it rewritten to `FY{2024-index}` — and the
extension is always `pdf`. -/
theorem c10_tempdoc_amended (company title u u' dt dt' dd dd' : String)
    (pd pd' : Option PDate) (qq qq' : Option String) (yy yy' : Option Nat)
    (index : Int) :
    generate_filename company ⟨title, u, dt, dd, pd, qq, yy⟩ index
      = generate_filename company ⟨title, u', dt', dd', pd', qq', yy'⟩ index
    ∧ (containsSub (pyLowerStr title) "annual" = false →
        containsSub (pyLowerStr title) "financial year" = false →
        containsSub (pyLowerStr title) "transcript" = false →
        containsSub (pyLowerStr title) "presentation" = false →
        generate_filename company ⟨title, u, dt, dd, pd, qq, yy⟩ index
          = pyCleanCompany company ++ "_" ++ ("doc-" ++ toString index)
            ++ "_" ++ "document" ++ "." ++ "pdf")
    ∧ (containsSub (pyLowerStr title) "annual" = true →
        generate_filename company ⟨title, u, dt, dd, pd, qq, yy⟩ index
          = pyCleanCompany company ++ "_" ++ ("FY" ++ toString (2024 - index))
            ++ "_" ++ "annual_report" ++ "." ++ "pdf") := by
  refine ⟨rfl, fun h1 h2 h3 h4 => ?_, fun h1 => ?_⟩
  · unfold generate_filename
    simp only [h1, h2, h3, h4, docIndex_norepl]
    rfl
  · unfold generate_filename
    simp only [h1, docIndex_norepl, docIndex_no_fy, (docIndex_startswith index).1,
      (docIndex_startswith index).2]
    rfl

/-- C10 amended witness at two concrete documents: a keyword-free title
and an annual-report title. -/
theorem c10_tempdoc_amended_witness :
    generate_filename "TCS" ⟨"Quarterly call", "u", "t", "d", none, none, none⟩ 3
      = pyCleanCompany "TCS" ++ "_" ++ ("doc-" ++ toString (3 : Int))
        ++ "_" ++ "document" ++ "." ++ "pdf"
    ∧ generate_filename "TCS" ⟨"Annual Report 2023", "u", "t", "d", none, none, none⟩ 100
      = pyCleanCompany "TCS" ++ "_" ++ ("FY" ++ toString ((2024 : Int) - 100))
        ++ "_" ++ "annual_report" ++ "." ++ "pdf" :=
  ⟨(c10_tempdoc_amended "TCS" "Quarterly call" "u" "u" "t" "t" "d" "d"
      none none none none none none 3).2.1 (by decide) (by decide) (by decide) (by decide),
   (c10_tempdoc_amended "TCS" "Annual Report 2023" "u" "u" "t" "t" "d" "d"
      none none none none none none 100).2.2 (by decide)⟩

/-! ### Claims C4 and C5 — the temporal parser -/

theorem takeDigits_length : ∀ (n : Nat) (l : List Char),
    (takeDigits n l).length ≤ n
  | 0, _ => by simp [takeDigits]
  | _ + 1, [] => by simp [takeDigits]
  | n + 1, c :: rest => by
    rw [takeDigits]
    split
    · simpa using takeDigits_length n rest
    · simp

theorem takeDigits_digits : ∀ (n : Nat) (l : List Char),
    ∀ c ∈ takeDigits n l, isDigitCh c = true
  | 0, _ => by simp [takeDigits]
  | _ + 1, [] => by simp [takeDigits]
  | n + 1, c :: rest => by
    rw [takeDigits]
    split
    · intro x hx
      rcases List.mem_cons.1 hx with rfl | hx
      · assumption
      · exact takeDigits_digits n rest x hx
    · simp

theorem foldl_digits_lt : ∀ (l : List Char) (a : Nat),
    (∀ c ∈ l, isDigitCh c = true) →
      l.foldl (fun x c => x * 10 + (c.toNat - 48)) a < (a + 1) * 10 ^ l.length
  | [], a, _ => by simp
  | c :: l, a, h => by
    have hc : isDigitCh c = true := h c (by simp)
    have hc9 : c.toNat - 48 ≤ 9 := by
      simp only [isDigitCh, Bool.and_eq_true, decide_eq_true_eq] at hc
      omega
    have ih := foldl_digits_lt l (a * 10 + (c.toNat - 48))
      (fun x hx => h x (by simp [hx]))
    calc (c :: l).foldl (fun x c => x * 10 + (c.toNat - 48)) a
        = l.foldl (fun x c => x * 10 + (c.toNat - 48)) (a * 10 + (c.toNat - 48)) := rfl
      _ < (a * 10 + (c.toNat - 48) + 1) * 10 ^ l.length := ih
      _ ≤ ((a + 1) * 10) * 10 ^ l.length := by
          have hle : a * 10 + (c.toNat - 48) + 1 ≤ (a + 1) * 10 := by omega
          exact Nat.mul_le_mul_right _ hle
      _ = (a + 1) * 10 ^ (c :: l).length := by
          rw [List.length_cons, Nat.pow_succ]
          ring

theorem digitsToNat_lt (l : List Char) (h : ∀ c ∈ l, isDigitCh c = true) :
    digitsToNat l < 10 ^ l.length := by
  have hf := foldl_digits_lt l 0 h
  simpa [digitsToNat] using hf

theorem matchFyTail_bounds : ∀ (l : List Char) (n : Nat),
    matchFyTail l = some n → n ≤ 9999
  | [], _ => by simp [matchFyTail]
  | [f], _ => by simp [matchFyTail]
  | f :: y :: r2, n => by
    intro h
    rw [matchFyTail] at h
    by_cases hfy : (f == 'f' && y == 'y') = true
    · rw [if_pos hfy] at h
      by_cases hlen : 2 ≤ (takeDigits 4 (r2.dropWhile pyIsSpaceCh)).length
      · rw [if_pos hlen] at h
        simp only [Option.some.injEq] at h
        subst h
        have hlt := digitsToNat_lt _ (takeDigits_digits 4 (r2.dropWhile pyIsSpaceCh))
        have hle := takeDigits_length 4 (r2.dropWhile pyIsSpaceCh)
        have hpow : (10 : Nat) ^ (takeDigits 4 (r2.dropWhile pyIsSpaceCh)).length
            ≤ 10 ^ 4 := Nat.pow_le_pow_right (by omega) hle
        have h4 : (10 : Nat) ^ 4 = 10000 := by norm_num
        omega
      · rw [if_neg hlen] at h
        exact absurd h (by simp)
    · rw [if_neg hfy] at h
      exact absurd h (by simp)

theorem matchQuarterAt_bounds : ∀ (l : List Char) (q n : Nat),
    matchQuarterAt l = some (q, n) → 1 ≤ q ∧ q ≤ 4 ∧ n ≤ 9999
  | [], _, _ => by simp [matchQuarterAt]
  | [c], _, _ => by simp [matchQuarterAt]
  | c :: d :: rest, q, n => by
    intro h
    rw [matchQuarterAt] at h
    by_cases hqd : (c == 'q' && (decide (49 ≤ d.toNat) && decide (d.toNat ≤ 52))) = true
    · rw [if_pos hqd] at h
      cases hm : matchFyTail (rest.dropWhile pyIsSpaceCh) with
      | none =>
        rw [hm] at h
        exact absurd h (by simp)
      | some nraw =>
        rw [hm] at h
        simp only [Option.some.injEq, Prod.mk.injEq] at h
        obtain ⟨rfl, rfl⟩ := h
        simp only [Bool.and_eq_true, beq_iff_eq, decide_eq_true_eq] at hqd
        exact ⟨by omega, by omega, matchFyTail_bounds _ _ hm⟩
    · rw [if_neg hqd] at h
      exact absurd h (by simp)

theorem searchQuarter_bounds : ∀ (l : List Char) (q n : Nat),
    searchQuarter l = some (q, n) → 1 ≤ q ∧ q ≤ 4 ∧ n ≤ 9999
  | [], q, n => by simp [searchQuarter]
  | c :: rest, q, n => by
    intro h
    rw [searchQuarter] at h
    cases hm : matchQuarterAt (c :: rest) with
    | some r =>
      rw [hm] at h
      simp only [Option.some.injEq] at h
      subst h
      exact matchQuarterAt_bounds _ _ _ hm
    | none =>
      rw [hm] at h
      exact searchQuarter_bounds rest q n h

/-- C4: for every text in which the case-insensitive quarter pattern
`Q<1-4>` + whitespace + `FY` + whitespace + 2-4 digits matches (the
leftmost match having quarter digit `q` and year number `n`), the
parser returns quarter `Q{q}` with `1 ≤ q ≤ 4`, a fiscal year at most
9999 with two-digit values mapped to `2000+n`, display label
`Q{q} FY{year}`, and a null exact date. -/
theorem c4_quarter_fy (t : String) (q n : Nat)
    (h : searchQuarter (pyStrip (pyLower t.data)) = some (q, n)) :
    (1 ≤ q ∧ q ≤ 4) ∧ n ≤ 9999 ∧
    extract_date_from_text t =
      { dateStr := some ("Q" ++ toString q ++ " FY"
          ++ toString (if n < 100 then 2000 + n else n))
        parsed_date := none
        quarter := some ("Q" ++ toString q)
        year := some (if n < 100 then 2000 + n else n) } := by
  obtain ⟨h1, h2, h3⟩ := searchQuarter_bounds _ q n h
  refine ⟨⟨h1, h2⟩, h3, ?_⟩
  simp [extract_date_from_text, h, pyYearNorm]

/-- C4 witness at the text `Q1 FY24`. -/
theorem c4_quarter_fy_witness :
    (1 ≤ 1 ∧ 1 ≤ 4) ∧ 24 ≤ 9999 ∧
    extract_date_from_text "Q1 FY24" =
      { dateStr := some "Q1 FY2024"
        parsed_date := none
        quarter := some "Q1"
        year := some 2024 } :=
  c4_quarter_fy "Q1 FY24" 1 24 (by decide)

theorem yearAtHere_bounds : ∀ (l : List Char) (y : Nat),
    yearAtHere l = some y → 2000 ≤ y ∧ y ≤ 2099
  | [], _ => by simp [yearAtHere]
  | [c], _ => by simp [yearAtHere]
  | [c, d], _ => by simp [yearAtHere]
  | [c, d, e], _ => by simp [yearAtHere]
  | c2 :: c0 :: d1 :: d2 :: rest, y => by
    intro h
    have hred : yearAtHere (c2 :: c0 :: d1 :: d2 :: rest)
        = (if (c2 == '2' && c0 == '0' && isDigitCh d1 && isDigitCh d2
            && noWordAfter rest) = true then
          some (digitsToNat [c2, c0, d1, d2])
        else none) := rfl
    rw [hred] at h
    by_cases hcond : (c2 == '2' && c0 == '0' && isDigitCh d1 && isDigitCh d2
        && noWordAfter rest) = true
    · rw [if_pos hcond] at h
      simp only [Option.some.injEq] at h
      subst h
      simp only [Bool.and_eq_true, beq_iff_eq] at hcond
      obtain ⟨⟨⟨⟨rfl, rfl⟩, hd1⟩, hd2⟩, _⟩ := hcond
      simp only [isDigitCh, Bool.and_eq_true, decide_eq_true_eq] at hd1 hd2
      have e2 : ('2' : Char).toNat = 50 := rfl
      have e0 : ('0' : Char).toNat = 48 := rfl
      simp only [digitsToNat, List.foldl, e2, e0]
      omega
    · rw [if_neg hcond] at h
      exact absurd h (by simp)

theorem searchYearAux_bounds : ∀ (l : List Char) (b : Bool) (y : Nat),
    searchYearAux b l = some y → 2000 ≤ y ∧ y ≤ 2099
  | [], _, _ => by simp [searchYearAux]
  | c :: rest, b, y => by
    intro h
    rw [searchYearAux] at h
    cases b with
    | true =>
      rw [if_pos rfl] at h
      exact searchYearAux_bounds rest (isWordCh c) y h
    | false =>
      rw [if_neg (by simp)] at h
      cases hy : yearAtHere (c :: rest) with
      | some y0 =>
        rw [hy] at h
        simp only [Option.some.injEq] at h
        subst h
        exact yearAtHere_bounds _ _ hy
      | none =>
        rw [hy] at h
        exact searchYearAux_bounds rest (isWordCh c) y h

theorem searchYear_bounds (l : List Char) (y : Nat)
    (h : searchYear l = some y) : 2000 ≤ y ∧ y ≤ 2099 :=
  searchYearAux_bounds l false y h

/-- C5 counterexample.  First: `FY2023` contains a Financial-Year
expression in the sense of the claim (`FY<YYYY>`), yet the parser
returns the all-null sentinel — the bare-year regex `\b(20\d{2})\b`
does not match inside `FY2023` because `Y` and `2` are both word
characters, so there is no word boundary.  Second: on
`Annual Report 2023`, where the year branch does match, the parser
returns `exact_date = None`, not the claimed fiscal-year-end date
`date(2023, 3, 31)`. -/
theorem c5_fy_counterexample :
    extract_date_from_text "FY2023" =
      { dateStr := none, parsed_date := none, quarter := none, year := none }
    ∧ (extract_date_from_text "Annual Report 2023").year = some 2023
    ∧ (extract_date_from_text "Annual Report 2023").parsed_date = none
    ∧ (extract_date_from_text "Annual Report 2023").parsed_date
        ≠ some ⟨2023, 3, 31, by decide, by decide, by decide, by decide, by decide⟩ := by
  decide

/-- C5 amended: for every text with no quarter match and no month+year
match on the lowered text, in which the bare-year pattern
`\b(20\d{2})\b` matches the original text with (leftmost) year `y`, the
parser returns `fiscal_year = y` (necessarily 2000-2099), display label
`FY{y}`, and a NULL exact date — the fiscal-year-end date
`date(year, 3, 31)` is attached only in the annual-report extraction
path of `extract_concall_data`, not by the temporal parser. -/
theorem c5_fy_amended (t : String) (y : Nat)
    (hq : searchQuarter (pyStrip (pyLower t.data)) = none)
    (hm : searchMonth (pyStrip (pyLower t.data)) = none)
    (hy : searchYear t.data = some y) :
    (2000 ≤ y ∧ y ≤ 2099) ∧
    extract_date_from_text t =
      { dateStr := some ("FY" ++ toString y)
        parsed_date := none
        quarter := none
        year := some y } := by
  refine ⟨searchYear_bounds _ y hy, ?_⟩
  simp [extract_date_from_text, hq, hm, hy]

/-- C5 amended witness at the text `Annual Report 2023`. -/
theorem c5_fy_amended_witness :
    (2000 ≤ 2023 ∧ 2023 ≤ 2099) ∧
    extract_date_from_text "Annual Report 2023" =
      { dateStr := some "FY2023"
        parsed_date := none
        quarter := none
        year := some 2023 } :=
  c5_fy_amended "Annual Report 2023" 2023 (by decide) (by decide) (by decide)

/-! ### Claim C1 — grouping and top-5 selection -/

/-- Looking a key up after adding one document: the entry of that key
grows by the document at the end, every other entry is untouched. -/
theorem lookupGroup_addToGroups : ∀ (g : List (String × List ConcallDoc))
    (kx k : String) (c : ConcallDoc),
    lookupGroup (addToGroups g kx c) k
      = if k == kx then some ((lookupGroup g k).getD [] ++ [c])
        else lookupGroup g k
  | [], kx, k, c => by
    by_cases hk : k = kx
    · subst hk
      simp [addToGroups, lookupGroup]
    · have hb : (k == kx) = false := by simpa using hk
      simp [addToGroups, lookupGroup, hb]
  | (k0, ds) :: rest, kx, k, c => by
    by_cases h0 : k0 = kx
    · subst h0
      rw [addToGroups]
      rw [if_pos (by simp)]
      by_cases hk : k = k0
      · subst hk
        simp [lookupGroup]
      · have hb : (k == k0) = false := by simpa using hk
        simp [lookupGroup, hb]
    · rw [addToGroups]
      rw [if_neg (by simpa using h0)]
      by_cases hk : k = k0
      · subst hk
        have hb : (k == kx) = false := by simpa using h0
        simp [lookupGroup, hb]
      · have hb : (k == k0) = false := by simpa using hk
        simp only [lookupGroup, hb, Bool.false_eq_true, if_false]
        exact lookupGroup_addToGroups rest kx k c

/-- The grouping dict partitions the input: the entry of key `k` is
exactly the subsequence of documents whose date key is `k` (in
insertion order). -/
theorem lookupGroup_concallGroups (l : List ConcallDoc) (k : String) :
    lookupGroup (concallGroups l) k =
      if (l.filter (fun c => groupKey c == k)).isEmpty then none
      else some (l.filter (fun c => groupKey c == k)) := by
  induction l using List.reverseRecOn with
  | nil => simp [concallGroups, lookupGroup]
  | append_singleton l c ih =>
    have hfold : concallGroups (l ++ [c]) = addToGroups (concallGroups l) (groupKey c) c := by
      simp [concallGroups, List.foldl_append]
    rw [hfold, lookupGroup_addToGroups, List.filter_append]
    by_cases hk : groupKey c = k
    · have hb : (groupKey c == k) = true := by simpa using hk
      have hkb : (k == groupKey c) = true := by simp [hk]
      rw [if_pos hkb]
      simp only [List.filter_cons, hb, if_pos, List.filter_nil]
      rw [ih]
      by_cases he : (l.filter (fun c => groupKey c == k)).isEmpty
      · rw [if_pos he]
        have : l.filter (fun c => groupKey c == k) = [] := List.isEmpty_iff.1 he
        simp [this]
      · rw [if_neg he]
        simp
    · have hb : (groupKey c == k) = false := by simpa using hk
      have hkb : (k == groupKey c) = false := by simp [beq_iff_eq]; exact fun h => hk h.symm
      rw [if_neg (by simp [hkb])]
      simp only [List.filter_cons, hb, Bool.false_eq_true, if_false, List.filter_nil,
        List.append_nil]
      exact ih

/-- Adding a document either leaves the key list unchanged (key already
present) or appends the new key at the end. -/
theorem addToGroups_keys : ∀ (g : List (String × List ConcallDoc))
    (k : String) (c : ConcallDoc),
    ((addToGroups g k c).map Prod.fst = g.map Prod.fst ∧ k ∈ g.map Prod.fst)
    ∨ ((addToGroups g k c).map Prod.fst = g.map Prod.fst ++ [k] ∧ k ∉ g.map Prod.fst)
  | [], k, c => by
    right
    simp [addToGroups]
  | (k0, ds) :: rest, k, c => by
    by_cases h0 : k0 = k
    · subst h0
      left
      rw [addToGroups, if_pos (by simp)]
      simp
    · rw [addToGroups, if_neg (by simpa using h0)]
      rcases addToGroups_keys rest k c with ⟨he, hm⟩ | ⟨he, hm⟩
      · left
        simp [he, hm]
      · right
        constructor
        · simp [he]
        · simp only [List.map_cons, List.mem_cons]
          rintro (h | h)
          · exact h0 h.symm
          · exact hm h

/-- The keys of the grouping dict are pairwise distinct. -/
theorem concallGroups_keys_nodup (l : List ConcallDoc) :
    ((concallGroups l).map Prod.fst).Pairwise (fun a b => a ≠ b) := by
  suffices hgen : ∀ (g : List (String × List ConcallDoc)),
      (g.map Prod.fst).Pairwise (fun a b => a ≠ b) →
      ((l.foldl (fun g c => addToGroups g (groupKey c) c) g).map Prod.fst).Pairwise
        (fun a b => a ≠ b) by
    exact hgen [] (by simp)
  induction l with
  | nil => intro g hg; simpa using hg
  | cons c rest ih =>
    intro g hg
    simp only [List.foldl_cons]
    refine ih _ ?_
    rcases addToGroups_keys g (groupKey c) c with ⟨he, _⟩ | ⟨he, hm⟩
    · rw [he]; exact hg
    · rw [he]
      rw [List.pairwise_append]
      refine ⟨hg, List.pairwise_singleton _ _, ?_⟩
      intro a ha b hb
      simp only [List.mem_singleton] at hb
      subst hb
      exact fun hab => hm (hab ▸ ha)

/-- The selected document of a quarter carries that quarter's period
label and representative date. -/
theorem selectProj (oracle : ConcallDoc → Bool) (q : Quarter) (s : SelectedDocument)
    (h : ((tryQuarter oracle (pySortAsc get_priority q.members)).map
      (fun c => (⟨q.qdate, q.rep, c⟩ : SelectedDocument))) = some s) :
    s.period = q.qdate ∧ s.repKey = q.rep := by
  cases htq : tryQuarter oracle (pySortAsc get_priority q.members) with
  | none => rw [htq] at h; simp at h
  | some c =>
    rw [htq] at h
    simp only [Option.map_some'] at h
    obtain rfl := Option.some.inj h
    exact ⟨rfl, rfl⟩

/-- C1: the selection engine partitions candidates by the period date
key (equal keys always grouped: the entry of key `k` is exactly the
filter of the input on that key), ranks each quarter by the most recent
member date (every member key is at most the representative), orders
quarters by that date descending, and produces at most 5 selected
documents, pairwise from distinct periods, newest period first. -/
theorem c1_selection_engine (oracle : ConcallDoc → Bool) (l : List ConcallDoc) :
    (selectConcalls oracle l).length ≤ 5
    ∧ (selectConcalls oracle l).Pairwise (fun a b => a.period ≠ b.period)
    ∧ (selectConcalls oracle l).Pairwise (fun a b => b.repKey ≤ a.repKey)
    ∧ (∀ k, lookupGroup (concallGroups l) k =
        if (l.filter (fun c => groupKey c == k)).isEmpty then none
        else some (l.filter (fun c => groupKey c == k)))
    ∧ (∀ q ∈ sortedQuarters l, ∀ c ∈ q.members, concallKey c ≤ q.rep) := by
  have hperm := pySortDesc_perm (fun q : Quarter => q.rep)
    ((concallGroups l).map (fun g => mkQuarter g.1 g.2))
  refine ⟨?_, ?_, ?_, fun k => lookupGroup_concallGroups l k, ?_⟩
  · calc (selectConcalls oracle l).length
        ≤ (top5Quarters l).length := List.length_filterMap_le _ _
      _ ≤ 5 := List.length_take_le 5 _
  · have hkeys := concallGroups_keys_nodup l
    rw [List.pairwise_map] at hkeys
    have h1 : ((concallGroups l).map (fun g => mkQuarter g.1 g.2)).Pairwise
        (fun a b => a.qdate ≠ b.qdate) := by
      rw [List.pairwise_map]
      exact hkeys.imp (fun h => by simpa [mkQuarter] using h)
    have h2 : (sortedQuarters l).Pairwise (fun a b => a.qdate ≠ b.qdate) :=
      (List.Perm.pairwise_iff (fun h => h.symm) hperm).2 h1
    have h3 : (top5Quarters l).Pairwise (fun a b => a.qdate ≠ b.qdate) :=
      List.Pairwise.sublist (List.take_sublist 5 _) h2
    refine List.pairwise_filterMap.2 (h3.imp ?_)
    intro a b hab x hx y hy
    have hxa := selectProj oracle a x (Option.mem_def.1 hx)
    have hyb := selectProj oracle b y (Option.mem_def.1 hy)
    rw [hxa.1, hyb.1]
    exact hab
  · have h2 : (sortedQuarters l).Pairwise (fun a b => b.rep ≤ a.rep) :=
      pySortDesc_sorted (fun q : Quarter => q.rep) _
    have h3 : (top5Quarters l).Pairwise (fun a b => b.rep ≤ a.rep) :=
      List.Pairwise.sublist (List.take_sublist 5 _) h2
    refine List.pairwise_filterMap.2 (h3.imp ?_)
    intro a b hab x hx y hy
    have hxa := selectProj oracle a x (Option.mem_def.1 hx)
    have hyb := selectProj oracle b y (Option.mem_def.1 hy)
    rw [hxa.2, hyb.2]
    exact hab
  · intro q hq c hc
    have hq2 : q ∈ (concallGroups l).map (fun g => mkQuarter g.1 g.2) :=
      hperm.subset hq
    obtain ⟨g, hg, rfl⟩ := List.mem_map.1 hq2
    have hsorted := pySortDesc_sorted concallKey g.2
    have hmem : c ∈ pySortDesc concallKey g.2 := by
      simpa [mkQuarter] using hc
    cases hs : pySortDesc concallKey g.2 with
    | nil => rw [hs] at hmem; simp at hmem
    | cons m rest =>
      rw [hs] at hmem hsorted
      have hrep : (mkQuarter g.1 g.2).rep = concallKey m := by
        simp [mkQuarter, hs]
      rw [hrep]
      rcases List.mem_cons.1 hmem with rfl | hcr
      · exact Nat.le_refl _
      · exact (List.pairwise_cons.1 hsorted).1 c hcr

/-- C1 witness: four concall documents over two periods with all
downloads succeeding — both selection bounds and the partition /
representative-date facts instantiate. -/
theorem c1_selection_witness :
    (selectConcalls (fun _ => true) [cgDoc, recDoc, trDoc, ppDoc]).length ≤ 5
    ∧ lookupGroup (concallGroups [cgDoc, recDoc, trDoc, ppDoc]) "Apr-2025"
        = (if (([cgDoc, recDoc, trDoc, ppDoc].filter
            (fun c => groupKey c == "Apr-2025")).isEmpty) then none
          else some ([cgDoc, recDoc, trDoc, ppDoc].filter
            (fun c => groupKey c == "Apr-2025")))
    ∧ concallKey trDoc
        ≤ (Quarter.mk "Apr-2025" [cgDoc, recDoc, trDoc] (pdateKey dApr2025)).rep :=
  ⟨(c1_selection_engine (fun _ => true) [cgDoc, recDoc, trDoc, ppDoc]).1,
   (c1_selection_engine (fun _ => true) [cgDoc, recDoc, trDoc, ppDoc]).2.2.2.1 "Apr-2025",
   (c1_selection_engine (fun _ => true) [cgDoc, recDoc, trDoc, ppDoc]).2.2.2.2
     ⟨"Apr-2025", [cgDoc, recDoc, trDoc], pdateKey dApr2025⟩ (by decide) trDoc (by decide)⟩
